import Mathlib

/-!
Verification of the ServerManager administrative REPL tool.

Python strings are modelled as `List Char`; Python dicts keyed by strings or
ints are modelled as functions into `Option`, with insertion overwriting the
previous binding, which matches `d[k] = v` semantics.  Python exceptions are
modelled with `Except`: a raised exception is an `Except.error`, remote calls
whose outcome the code merely observes are passed in as `Except`-valued data.
Each embedded definition carries a reference to the Python function it
transliterates.
-/

namespace ServerManager

/-- Dict insertion `d[k] = v`: the new binding overwrites any previous one. -/
def upd {κ β : Type} [DecidableEq κ] (m : κ → Option β) (k : κ) (v : β) : κ → Option β :=
  fun q => if q = k then some v else m q

/-- Python `name.startswith(pfx)` over char lists. -/
def startsWithL : List Char → List Char → Bool
  | _, [] => true
  | [], _ :: _ => false
  | c :: cs, p :: ps => c = p && startsWithL cs ps

/-- Python `s.isdigit()` restricted to ASCII digits: non-empty and all digits. -/
def pyIsDigitL (cs : List Char) : Bool :=
  !cs.isEmpty && cs.all (fun c => c.isDigit)

/-- Python `int(s)` on an all-digit string: decimal value of the digit string. -/
def parseNatL (cs : List Char) : Nat :=
  cs.foldl (fun n c => n * 10 + (c.toNat - 48)) 0

/-- `_extract_suffix_index(name, prefix)` from `src/main.py` (identical copy in
`src/commands/create_server.py`): the part of `name` after the prefix taken as
an ordinal iff it is entirely numeric and at least 1; `none` otherwise, and
`none` whenever the prefix is empty or `name` does not start with it. -/
def extractSuffixIndex (nm pfx : List Char) : Option Nat :=
  if pfx = [] then none
  else if startsWithL nm pfx then
    let suf := nm.drop pfx.length
    if pyIsDigitL suf then
      let n := parseNatL suf
      if 1 ≤ n then some n else none
    else none
  else none

/-- The scanning loop of `_next_index_for_kind` from `src/main.py`: running
maximum over all extracted suffix indices, starting at 0, plus one. -/
def nextIndexForKind (names : List (List Char)) (pfx : List Char) : Nat :=
  (names.foldl
    (fun m nm =>
      match extractSuffixIndex nm pfx with
      | some i => if m < i then i else m
      | none => m) 0) + 1

lemma startsWithL_iff (nm pfx : List Char) :
    startsWithL nm pfx = true ↔ ∃ suf, nm = pfx ++ suf := by
  induction pfx generalizing nm with
  | nil => simp [startsWithL]
  | cons p ps ih =>
    cases nm with
    | nil => simp [startsWithL]
    | cons c cs =>
      simp only [startsWithL, Bool.and_eq_true, decide_eq_true_eq, ih]
      constructor
      · rintro ⟨rfl, suf, rfl⟩
        exact ⟨suf, rfl⟩
      · rintro ⟨suf, h⟩
        cases h
        exact ⟨rfl, suf, rfl⟩

lemma extractSuffixIndex_eq_some_iff (nm pfx : List Char) (hp : pfx ≠ []) (n : Nat) :
    extractSuffixIndex nm pfx = some n ↔
      ∃ suf, nm = pfx ++ suf ∧ pyIsDigitL suf = true ∧ parseNatL suf = n ∧ 1 ≤ n := by
  unfold extractSuffixIndex
  rw [if_neg hp]
  by_cases hs : startsWithL nm pfx = true
  · obtain ⟨suf, rfl⟩ := (startsWithL_iff nm pfx).mp hs
    rw [if_pos hs]
    simp only [List.drop_left]
    constructor
    · intro h
      by_cases hd : pyIsDigitL suf = true
      · rw [if_pos hd] at h
        by_cases h1 : 1 ≤ parseNatL suf
        · rw [if_pos h1] at h
          exact ⟨suf, rfl, hd, Option.some.inj h, Option.some.inj h ▸ h1⟩
        · rw [if_neg h1] at h; exact absurd h (by simp)
      · rw [if_neg hd] at h; exact absurd h (by simp)
    · rintro ⟨suf', heq, hd, hv, h1⟩
      have hsuf : suf' = suf := (List.append_cancel_left heq).symm
      subst hsuf
      rw [if_pos hd, if_pos (hv ▸ h1), hv]
  · rw [if_neg hs]
    constructor
    · intro h
      exact absurd h (by simp)
    · rintro ⟨suf, rfl, -, -, -⟩
      exact (hs ((startsWithL_iff _ _).mpr ⟨suf, rfl⟩)).elim

lemma extractSuffixIndex_ge_one (nm pfx : List Char) (n : Nat)
    (h : extractSuffixIndex nm pfx = some n) : 1 ≤ n := by
  by_cases hp : pfx = []
  · rw [extractSuffixIndex, if_pos hp] at h
    exact absurd h (by simp)
  · obtain ⟨suf, -, -, -, h1⟩ := (extractSuffixIndex_eq_some_iff nm pfx hp n).mp h
    exact h1

lemma foldl_max_spec {α : Type} (f : α → Option Nat) (l : List α) (m : Nat) :
    m ≤ l.foldl (fun m x => match f x with | some i => if m < i then i else m | none => m) m
    ∧ (∀ x ∈ l, ∀ i, f x = some i →
        i ≤ l.foldl (fun m x => match f x with | some i => if m < i then i else m | none => m) m)
    ∧ (l.foldl (fun m x => match f x with | some i => if m < i then i else m | none => m) m = m
        ∨ ∃ x ∈ l,
            f x = some
              (l.foldl (fun m x => match f x with | some i => if m < i then i else m | none => m) m)) := by
  induction l generalizing m with
  | nil => exact ⟨Nat.le_refl m, by simp, Or.inl rfl⟩
  | cons y t ih =>
    simp only [List.foldl_cons]
    rcases hy : f y with _ | i
    · obtain ⟨h1, h2, h3⟩ := ih m
      refine ⟨by simpa [hy] using h1, ?_, ?_⟩
      · intro x hx j hj
        rcases List.mem_cons.mp hx with rfl | hx
        · rw [hy] at hj; exact absurd hj (by simp)
        · simpa [hy] using h2 x hx j hj
      · rcases h3 with h | ⟨x, hx, hfx⟩
        · exact Or.inl (by simpa [hy] using h)
        · exact Or.inr ⟨x, List.mem_cons_of_mem y hx, by simpa [hy] using hfx⟩
    · obtain ⟨h1, h2, h3⟩ := ih (if m < i then i else m)
      have hm : m ≤ if m < i then i else m := by split <;> omega
      refine ⟨by simpa [hy] using Nat.le_trans hm h1, ?_, ?_⟩
      · intro x hx j hj
        rcases List.mem_cons.mp hx with rfl | hx
        · rw [hy] at hj
          have hj' : j = i := (Option.some.inj hj).symm
          subst hj'
          have : j ≤ if m < j then j else m := by split <;> omega
          simpa [hy] using Nat.le_trans this h1
        · simpa [hy] using h2 x hx j hj
      · rcases h3 with h | ⟨x, hx, hfx⟩
        · by_cases hmi : m < i
          · refine Or.inr ⟨y, List.mem_cons_self y t, ?_⟩
            rw [hy]
            simp only [hy]
            rw [h, if_pos hmi]
          · exact Or.inl (by simp only [hy]; rw [h, if_neg hmi])
        · exact Or.inr ⟨x, List.mem_cons_of_mem y hx, by simpa [hy] using hfx⟩

/-- C5: `_next_index_for_kind` returns one greater than the maximum candidate
ordinal, where a name contributes a candidate exactly when it is the prefix
followed by an entirely numeric remainder of value at least 1; it returns 1
when no name contributes, and in particular names M1, M2, Mx, M0 with prefix M
give next index 3. -/
theorem next_index_max_plus_one (names : List (List Char)) (pfx : List Char) (hp : pfx ≠ []) :
    (∀ nm n, extractSuffixIndex nm pfx = some n ↔
        ∃ suf, nm = pfx ++ suf ∧ pyIsDigitL suf = true ∧ parseNatL suf = n ∧ 1 ≤ n)
    ∧ ((names.filterMap (fun nm => extractSuffixIndex nm pfx)) = [] →
        nextIndexForKind names pfx = 1)
    ∧ (∀ c ∈ names.filterMap (fun nm => extractSuffixIndex nm pfx),
        c < nextIndexForKind names pfx)
    ∧ ((names.filterMap (fun nm => extractSuffixIndex nm pfx)) ≠ [] →
        (nextIndexForKind names pfx - 1) ∈ names.filterMap (fun nm => extractSuffixIndex nm pfx))
    ∧ nextIndexForKind ["M1".data, "M2".data, "Mx".data, "M0".data] ("M".data) = 3 := by
  obtain ⟨h1, h2, h3⟩ := foldl_max_spec (fun nm => extractSuffixIndex nm pfx) names 0
  refine ⟨fun nm n => extractSuffixIndex_eq_some_iff nm pfx hp n, ?_, ?_, ?_, by decide⟩
  · intro hnil
    unfold nextIndexForKind
    rcases h3 with h | ⟨x, hx, hfx⟩
    · rw [h]
    · exfalso
      have hmem : _ ∈ names.filterMap (fun nm => extractSuffixIndex nm pfx) :=
        List.mem_filterMap.mpr ⟨x, hx, hfx⟩
      rw [hnil] at hmem
      exact List.not_mem_nil _ hmem
  · intro c hc
    obtain ⟨x, hx, hfx⟩ := List.mem_filterMap.mp hc
    have := h2 x hx c hfx
    unfold nextIndexForKind
    omega
  · intro hne
    rcases h3 with h | ⟨x, hx, hfx⟩
    · obtain ⟨c, hc⟩ := List.exists_mem_of_ne_nil _ hne
      obtain ⟨x, hx, hfx⟩ := List.mem_filterMap.mp hc
      have hge := extractSuffixIndex_ge_one x pfx c hfx
      have := h2 x hx c hfx
      omega
    · unfold nextIndexForKind
      simp only [Nat.add_sub_cancel]
      exact List.mem_filterMap.mpr ⟨x, hx, hfx⟩

/-- Witness for C5: the prefix "M" is non-empty, and the documented example
evaluates to next index 3. -/
theorem next_index_max_plus_one_witness :
    ("M".data : List Char) ≠ [] ∧
      nextIndexForKind ["M1".data, "M2".data, "Mx".data, "M0".data] ("M".data) = 3 :=
  ⟨by decide, (next_index_max_plus_one [] ("M".data) (by decide)).2.2.2.2⟩

lemma foldl_upd_spec {α κ β : Type} [DecidableEq κ] (c : α → Bool) (key : α → κ) (val : α → β)
    (l : List α) (m : κ → Option β) (k : κ) :
    l.foldl (fun m x => if c x then upd m (key x) (val x) else m) m k
      = match (l.filter (fun x => c x && decide (key x = k))).getLast? with
        | some x => some (val x)
        | none => m k := by
  induction l using List.reverseRecOn with
  | nil => simp
  | append_singleton t x ih =>
    rw [List.foldl_append, List.filter_append]
    simp only [List.foldl_cons, List.foldl_nil, List.filter_cons, List.filter_nil]
    by_cases hc : c x = true
    · by_cases hk : key x = k
      · rw [if_pos hc, if_pos (show (c x && decide (key x = k)) = true by simp [hc, hk]),
          List.getLast?_concat]
        simp [upd, hk]
      · rw [if_pos hc, if_neg (show ¬(c x && decide (key x = k)) = true by simp [hk]),
          List.append_nil]
        have hne : k ≠ key x := fun h => hk h.symm
        simp only [upd, if_neg hne]
        exact ih
    · rw [if_neg hc, if_neg (show ¬(c x && decide (key x = k)) = true by simp [hc]),
        List.append_nil]
      exact ih

/- ### Allocation cache (`_reload_allocations` in `src/main.py`) -/

/-- One allocation as reported by the panel's node-allocation listing:
the fields of `alloc["attributes"]` that `_reload_allocations` reads. -/
structure Alloc where
  ip : List Char
  port : Nat
  id : Nat
deriving DecidableEq

/-- The loopback IP literal `"127.0.0.1"` compared against in `_reload_allocations`. -/
def loopbackIp : List Char := "127.0.0.1".data

/-- `_reload_allocations(api)` from `src/main.py`.  The global dict
`allocations` is the explicit `cache` argument; the panel response (or the
exception raised while fetching it) is the `resp` argument.  On success the
code iterates the raw allocations and, for each one bound to 127.0.0.1,
assigns `allocations[port] = id`; it never clears the dict.  On failure it
prints the error and leaves the dict unchanged. -/
def reloadAllocations (cache : Nat → Option Nat) (resp : Except (List Char) (List Alloc)) :
    Nat → Option Nat :=
  match resp with
  | Except.error _ => cache
  | Except.ok raw =>
      raw.foldl (fun c al => if al.ip == loopbackIp then upd c al.port al.id else c) cache

/-- The mapping the spec says a reload produces: port maps to the id of the
last loopback-bound allocation with that port in the panel response, and to
nothing when the response has no loopback-bound allocation on that port. -/
def loopbackPortMap (raw : List Alloc) (p : Nat) : Option Nat :=
  ((raw.filter (fun al => al.ip == loopbackIp && decide (al.port = p))).getLast?).map Alloc.id

lemma reload_ok_spec (cache : Nat → Option Nat) (raw : List Alloc) (p : Nat) :
    reloadAllocations cache (Except.ok raw) p
      = match loopbackPortMap raw p with
        | some i => some i
        | none => cache p := by
  have hstep : reloadAllocations cache (Except.ok raw)
      = raw.foldl (fun c al => if al.ip == loopbackIp then upd c al.port al.id else c) cache := rfl
  rw [hstep]
  unfold loopbackPortMap
  rw [foldl_upd_spec (fun al => al.ip == loopbackIp) Alloc.port Alloc.id raw cache p]
  cases h : (raw.filter (fun al => al.ip == loopbackIp && decide (al.port = p))).getLast? with
  | none => simp
  | some al => simp

/-- Counterexample to C1: with a port 100 entry already cached and a panel
response containing no loopback allocations at all, a successful reload keeps
the stale entry, so the cache is not "exactly the loopback-bound allocations
reported by the panel at that reload". -/
theorem reload_not_rebuild_counterexample :
    reloadAllocations (fun p => if p = 100 then some 7 else none) (Except.ok []) 100
      ≠ loopbackPortMap [] 100 := by
  decide

/-- C1 amended: a successful reload merges the response into the cache rather
than rebuilding it.  Each port maps to the last loopback-bound allocation with
that port in the response (later duplicates overwrite earlier entries, and
response entries overwrite prior cache entries); any port absent from the
loopback-bound part of the response keeps its prior cached value. -/
theorem reload_merges_loopback_allocations (cache : Nat → Option Nat) (raw : List Alloc)
    (p : Nat) :
    reloadAllocations cache (Except.ok raw) p
      = match loopbackPortMap raw p with
        | some i => some i
        | none => cache p :=
  reload_ok_spec cache raw p

/-- C10: `_reload_allocations` never removes an entry: a port key present in
the cache before the call is still present afterwards, whether the reload
succeeds or fails. -/
theorem reload_never_removes (cache : Nat → Option Nat)
    (resp : Except (List Char) (List Alloc)) (p : Nat)
    (h : (cache p).isSome = true) :
    ((reloadAllocations cache resp) p).isSome = true := by
  cases resp with
  | error e => simpa [reloadAllocations] using h
  | ok raw =>
      rw [reload_ok_spec]
      cases hm : loopbackPortMap raw p with
      | none => simpa using h
      | some i => simp

/-- Witness for C10: a cache holding port 5 still holds it after a reload whose
response reassigns port 5. -/
theorem reload_never_removes_witness :
    (((fun p => if p = 5 then some 9 else none) : Nat → Option Nat) 5).isSome = true
    ∧ ((reloadAllocations (fun p => if p = 5 then some 9 else none)
          (Except.ok [⟨"127.0.0.1".data, 5, 3⟩])) 5).isSome = true :=
  ⟨by decide,
    reload_never_removes (fun p => if p = 5 then some 9 else none)
      (Except.ok [⟨"127.0.0.1".data, 5, 3⟩]) 5 (by decide)⟩

/- ### Environment merge (`_create_server` in `src/main.py`,
`CreateServerCommand.execute` in `src/commands/create_server.py`,
`_build_env_map` in `src/commands/update_servers.py`) -/

/-- The fixed override marker `"PANEL_ENV_"` recognized in process-environment
entry names. -/
def panelEnvMarker : List Char := "PANEL_ENV_".data

/-- The synthesized variable name `"SERVER_NAME"`. -/
def serverNameKey : List Char := "SERVER_NAME".data

/-- The override layering loop shared by all three call sites: starting from a
copy of `base`, every process-environment entry whose name starts with
`PANEL_ENV_` is inserted under its name with that marker stripped (dict
insertion, so iteration order decides duplicates and later layers win). -/
def applyPanelOverrides (base : List Char → Option (List Char))
    (procEnv : List (List Char × List Char)) : List Char → Option (List Char) :=
  procEnv.foldl
    (fun m kv =>
      if startsWithL kv.1 panelEnvMarker then upd m (kv.1.drop panelEnvMarker.length) kv.2 else m)
    base

/-- The environment map `_create_server` in `src/main.py` submits: egg defaults
plus the override layer.  No server-name variable is inserted on this path. -/
def mergeEnvMain (defaults : List Char → Option (List Char))
    (procEnv : List (List Char × List Char)) : List Char → Option (List Char) :=
  applyPanelOverrides defaults procEnv

/-- The environment map `CreateServerCommand.execute` in
`src/commands/create_server.py` submits: egg defaults, then the override
layer, then `env_map["SERVER_NAME"] = name`. -/
def mergeEnvCmd (defaults : List Char → Option (List Char))
    (procEnv : List (List Char × List Char)) (nm : List Char) :
    List Char → Option (List Char) :=
  upd (applyPanelOverrides defaults procEnv) serverNameKey nm

/-- `_build_env_map` in `src/commands/update_servers.py`: the server's current
environment, then the override layer, then the server-name variable. -/
def buildEnvMap (currentEnv : List Char → Option (List Char))
    (procEnv : List (List Char × List Char)) (nm : List Char) :
    List Char → Option (List Char) :=
  upd (applyPanelOverrides currentEnv procEnv) serverNameKey nm

/-- The value the spec's wording assigns to key `k` after the override layer:
the value of the last process-environment entry whose name is the marker
followed by `k`, if any. -/
def lastOverrideFor (procEnv : List (List Char × List Char)) (k : List Char) :
    Option (List Char) :=
  ((procEnv.filter
      (fun kv => startsWithL kv.1 panelEnvMarker
        && decide (kv.1.drop panelEnvMarker.length = k))).getLast?).map Prod.snd

/-- Modelled from the spec's claim wording (not from the source): the claimed
submitted map — defaults, overlaid by stripped overrides, overlaid last by the
server-name variable, later layers winning. -/
def specMergedEnv (defaults : List Char → Option (List Char))
    (procEnv : List (List Char × List Char)) (nm : List Char) :
    List Char → Option (List Char) := fun k =>
  if k = serverNameKey then some nm
  else
    match lastOverrideFor procEnv k with
    | some v => some v
    | none => defaults k

lemma applyPanelOverrides_spec (base : List Char → Option (List Char))
    (procEnv : List (List Char × List Char)) (k : List Char) :
    applyPanelOverrides base procEnv k
      = match lastOverrideFor procEnv k with
        | some v => some v
        | none => base k := by
  unfold applyPanelOverrides lastOverrideFor
  rw [foldl_upd_spec (fun kv => startsWithL kv.1 panelEnvMarker)
    (fun kv => kv.1.drop panelEnvMarker.length) Prod.snd procEnv base k]
  cases h : (procEnv.filter
      (fun kv => startsWithL kv.1 panelEnvMarker
        && decide (kv.1.drop panelEnvMarker.length = k))).getLast? with
  | none => simp
  | some kv => simp

/-- Counterexample to C4: on the `_create_server` path of `src/main.py`, with
no egg defaults and no overrides and computed name "Main-1", the submitted map
has no entry for SERVER_NAME, while the claimed layering gives it the computed
name.  The claim fails for this provisioning path. -/
theorem main_merge_missing_server_name_counterexample :
    mergeEnvMain (fun _ => none) [] serverNameKey
      ≠ specMergedEnv (fun _ => none) [] ("Main-1".data) serverNameKey := by
  decide

/-- C4 amended: on the `CreateServerCommand.execute` path the submitted map is
exactly the claimed layering — defaults, overlaid by every stripped
`PANEL_ENV_` entry (later duplicates winning), overlaid last by the
server-name variable, so an override beats a default and the name beats any
override of its key; on the `_create_server` path of `src/main.py` the
server-name variable is never inserted and the submitted map is only defaults
overlaid by the override layer. -/
theorem env_merge_layering_spec (defaults : List Char → Option (List Char))
    (procEnv : List (List Char × List Char)) (nm : List Char) :
    mergeEnvCmd defaults procEnv nm = specMergedEnv defaults procEnv nm
    ∧ ∀ k, mergeEnvMain defaults procEnv k
        = match lastOverrideFor procEnv k with
          | some v => some v
          | none => defaults k := by
  constructor
  · funext k
    unfold mergeEnvCmd specMergedEnv upd
    by_cases hk : k = serverNameKey
    · rw [if_pos hk, if_pos hk]
    · rw [if_neg hk, if_neg hk, applyPanelOverrides_spec]
  · intro k
    exact applyPanelOverrides_spec defaults procEnv k

/-- C9: the override layer is idempotent — applying it twice with the same
process environment yields the same map as applying it once. -/
theorem apply_overrides_idempotent (base : List Char → Option (List Char))
    (procEnv : List (List Char × List Char)) :
    applyPanelOverrides (applyPanelOverrides base procEnv) procEnv
      = applyPanelOverrides base procEnv := by
  funext k
  rw [applyPanelOverrides_spec, applyPanelOverrides_spec]
  cases h : lastOverrideFor procEnv k with
  | none => simp
  | some v => simp

/- ### Server creation request (`_create_server` in `src/main.py`,
`CreateServerCommand.execute` in `src/commands/create_server.py`) -/

/-- The keyword arguments both call sites pass to
`api.servers.create_server(...)`: fixed resource limits and feature limits,
the merged environment, the resolved default allocation, and the
start-on-completion flag. -/
structure CreateServerRequest where
  name : List Char
  userId : Nat
  nestId : Nat
  eggId : Nat
  environment : List Char → Option (List Char)
  memoryLimit : Nat
  swapLimit : Nat
  diskLimit : Nat
  cpuLimit : Nat
  ioLimit : Nat
  databaseLimit : Nat
  backupLimit : Nat
  allocationLimit : Nat
  startOnCompletion : Bool
  defaultAllocation : Nat

/-- The `api.servers.create_server(...)` call as written in
`CreateServerCommand.execute` (the call in `_create_server` of `src/main.py`
passes the same constants, including `start_on_completion=True` beside the
comment "Don't start yet - upload JAR first"). -/
def buildCreateRequest (nm : List Char) (userId nestId eggId : Nat)
    (envMap : List Char → Option (List Char)) (allocId : Nat) : CreateServerRequest :=
  { name := nm
    userId := userId
    nestId := nestId
    eggId := eggId
    environment := envMap
    memoryLimit := 7000
    swapLimit := 500
    diskLimit := 5000
    cpuLimit := 100
    ioLimit := 500
    databaseLimit := 0
    backupLimit := 0
    allocationLimit := 1
    startOnCompletion := true
    defaultAllocation := allocId }

/-- C3 evaluated at a concrete provisioning run: the submitted request carries
`start_on_completion = true`, so the server is NOT created in a "not yet
started" state — the code contradicts its own comment and the spec. -/
theorem create_request_start_on_completion_true :
    (buildCreateRequest ("srv-main-1".data) 1 5 10 (fun _ => none) 42).startOnCompletion
      = true :=
  rfl

/- ### Command dispatcher and REPL loop (`_handle_command` and the
`__main__` loop in `src/main.py`) -/

/-- Python `line.strip()`: leading and trailing whitespace removed. -/
def trimL (cs : List Char) : List Char :=
  ((cs.dropWhile Char.isWhitespace).reverse.dropWhile Char.isWhitespace).reverse

/-- Python `s.lower()` over char lists (ASCII). -/
def lowerL (cs : List Char) : List Char := cs.map Char.toLower

/-- Helper for Python `line.split()`: split on whitespace runs, dropping empty
tokens; `acc` holds the current token reversed. -/
def splitWsAux : List Char → List Char → List (List Char)
  | [], acc => if acc = [] then [] else [acc.reverse]
  | c :: rest, acc =>
    if c.isWhitespace then
      if acc = [] then splitWsAux rest [] else acc.reverse :: splitWsAux rest []
    else splitWsAux rest (c :: acc)

/-- Python `line.split()` with no separator argument. -/
def pyWords (cs : List Char) : List (List Char) := splitWsAux cs []

/-- What one pass through `_handle_command` does with a line.  `cont` models
returning True, `exitLoop` returning False, and `raised e` an exception
escaping `_handle_command` (there is no try/except around the handler
calls). -/
inductive CmdResult where
  | cont
  | exitLoop
  | raised (e : List Char)
deriving DecidableEq

/-- `_handle_command(api, line)` from `src/main.py`.  `apiSome` is whether
`api` is not None; `shw` and `crt` give the outcome of executing
`_show_servers` / `_create_server` on the argument tokens — `Except.ok` when
the handler returns (its printing aside), `Except.error` when its execution
raises.  An exception from a handler is not caught here, so it surfaces as
`CmdResult.raised`. -/
def handleCommand (apiSome : Bool) (shw crt : List (List Char) → Except (List Char) Unit)
    (line : List Char) : CmdResult :=
  let l := trimL line
  if l = [] then CmdResult.cont
  else if lowerL l = "exit".data ∨ lowerL l = "quit".data ∨ lowerL l = "q".data then
    CmdResult.exitLoop
  else
    match pyWords l with
    | [] => CmdResult.cont
    | cmd :: args =>
      let c := lowerL cmd
      if c = "show_servers".data then
        if apiSome = false then CmdResult.cont
        else
          match shw args with
          | Except.ok _ => CmdResult.cont
          | Except.error e => CmdResult.raised e
      else if c = "create_server".data then
        if apiSome = false then CmdResult.cont
        else if args = [] then CmdResult.cont
        else
          match crt args with
          | Except.ok _ => CmdResult.cont
          | Except.error e => CmdResult.raised e
      else CmdResult.cont

/-- How the `while True` loop in `src/main.py` ends. -/
inductive LoopEnd where
  | readInterrupted
  | exited
  | crashed (e : List Char)
  | inputExhausted
deriving DecidableEq

/-- The `__main__` loop of `src/main.py` over a finite input script: each
element is either a line read by `read_command` or an EOFError or
KeyboardInterrupt (`Except.error ()`), the only exceptions the loop catches.
A `CmdResult.raised` outcome propagates out of the loop uncaught. -/
def replRun (apiSome : Bool) (shw crt : List (List Char) → Except (List Char) Unit) :
    List (Except Unit (List Char)) → LoopEnd
  | [] => LoopEnd.inputExhausted
  | Except.error _ :: _ => LoopEnd.readInterrupted
  | Except.ok line :: rest =>
    match handleCommand apiSome shw crt line with
    | CmdResult.cont => replRun apiSome shw crt rest
    | CmdResult.exitLoop => LoopEnd.exited
    | CmdResult.raised e => LoopEnd.crashed e

/-- Counterexample to C2: when `_show_servers` raises "boom" on the first
line, the REPL loop terminates with that uncaught exception instead of
continuing to the second line (which would end with `inputExhausted`): the
dispatcher has no try/except around handler execution. -/
theorem dispatcher_crash_counterexample :
    replRun true (fun _ => Except.error ("boom".data)) (fun _ => Except.ok ())
        [Except.ok ("show_servers".data), Except.ok ("show_servers".data)]
      = LoopEnd.crashed ("boom".data)
    ∧ LoopEnd.crashed ("boom".data) ≠ LoopEnd.inputExhausted := by
  constructor
  · rfl
  · decide

/-- C2 amended: the dispatcher does not catch exceptions raised by a command
handler's execution — such an exception propagates out of `_handle_command`
and terminates the REPL loop; only when the handler completes without raising
does the loop continue with the remaining input. -/
theorem dispatcher_propagates_handler_errors (apiSome : Bool)
    (shw crt : List (List Char) → Except (List Char) Unit)
    (line : List Char) (rest : List (Except Unit (List Char))) (e : List Char) :
    (handleCommand apiSome shw crt line = CmdResult.raised e →
      replRun apiSome shw crt (Except.ok line :: rest) = LoopEnd.crashed e)
    ∧ (handleCommand apiSome shw crt line = CmdResult.cont →
      replRun apiSome shw crt (Except.ok line :: rest) = replRun apiSome shw crt rest) := by
  constructor
  · intro h
    simp [replRun, h]
  · intro h
    simp [replRun, h]

/-- Witness for C2's amended theorem: a raising `show_servers` handler crashes
the loop at that line. -/
theorem dispatcher_propagates_handler_errors_witness :
    replRun true (fun _ => Except.error ("boom".data)) (fun _ => Except.ok ())
        [Except.ok ("show_servers".data)]
      = LoopEnd.crashed ("boom".data) :=
  (dispatcher_propagates_handler_errors true (fun _ => Except.error ("boom".data))
    (fun _ => Except.ok ()) ("show_servers".data) [] ("boom".data)).1 (by decide)

/- ### Bulk updater (`UpdateServersCommand.execute` and `_build_env_map` in
`src/commands/update_servers.py`) -/

/-- Python `name.split("-", 1)`: everything after the first literal hyphen, or
`none` when the name has no hyphen (Python's `len(parts) < 2`). -/
def afterFirstHyphen : List Char → Option (List Char)
  | [] => none
  | c :: rest => if c = '-' then some rest else afterFirstHyphen rest

/-- `_matches_prefix(name)` from `UpdateServersCommand.execute`: the name must
start with the main or the interior naming string, and the part of the whole
name after its first hyphen must be entirely numeric and at least 1. -/
def matchesBulkName (mainPfx interiorPfx nm : List Char) : Bool :=
  if !(startsWithL nm mainPfx || startsWithL nm interiorPfx) then false
  else
    match afterFirstHyphen nm with
    | none => false
    | some suf => pyIsDigitL suf && decide (1 ≤ parseNatL suf)

/-- The record-selection step of `UpdateServersCommand.execute`, at the level
of display names: filtering happens only when at least one of the two naming
strings is configured non-empty (Python `if main_prefix or interior_prefix:`),
otherwise every record is kept. -/
def updateFilter (mainPfx interiorPfx : List Char) (names : List (List Char)) :
    List (List Char) :=
  if mainPfx ≠ [] ∨ interiorPfx ≠ [] then
    names.filter (fun nm => matchesBulkName mainPfx interiorPfx nm)
  else names

/-- C6: with the prefixes configured, the bulk updater selects exactly the
records whose display name starts with one of the two configured naming
strings and whose portion after the first literal hyphen is entirely numeric
and at least 1; all others are skipped. -/
theorem update_filter_selects_exactly (mainPfx interiorPfx : List Char)
    (names : List (List Char)) (h : mainPfx ≠ [] ∨ interiorPfx ≠ []) (nm : List Char) :
    nm ∈ updateFilter mainPfx interiorPfx names ↔
      nm ∈ names
      ∧ (startsWithL nm mainPfx = true ∨ startsWithL nm interiorPfx = true)
      ∧ ∃ suf, afterFirstHyphen nm = some suf ∧ pyIsDigitL suf = true ∧ 1 ≤ parseNatL suf := by
  unfold updateFilter
  rw [if_pos h, List.mem_filter]
  have hpred : matchesBulkName mainPfx interiorPfx nm = true ↔
      (startsWithL nm mainPfx = true ∨ startsWithL nm interiorPfx = true)
      ∧ ∃ suf, afterFirstHyphen nm = some suf ∧ pyIsDigitL suf = true ∧ 1 ≤ parseNatL suf := by
    unfold matchesBulkName
    by_cases hs : (startsWithL nm mainPfx || startsWithL nm interiorPfx) = true
    · rw [if_neg (by simp [hs])]
      cases hh : afterFirstHyphen nm with
      | none => simp
      | some suf =>
        simp only [Bool.and_eq_true, decide_eq_true_eq]
        constructor
        · rintro ⟨hd, h1⟩
          exact ⟨by simpa using hs, suf, rfl, hd, h1⟩
        · rintro ⟨-, suf', hsuf', hd, h1⟩
          obtain rfl : suf' = suf := (Option.some.inj hsuf').symm
          exact ⟨hd, h1⟩
    · rw [if_pos (by simp_all)]
      constructor
      · intro hfalse
        exact absurd hfalse (by simp)
      · rintro ⟨hor, -⟩
        exfalso
        rcases hor with h1 | h1
        · exact hs (by simp [h1])
        · exact hs (by simp [h1])
  rw [hpred]

/-- Witness for C6: with prefixes "Main-" and "Int-", the name "Main-7" is
selected from a catalog also containing a non-matching name. -/
theorem update_filter_selects_exactly_witness :
    "Main-7".data ∈ updateFilter ("Main-".data) ("Int-".data)
      ["Main-7".data, "Other".data] :=
  (update_filter_selects_exactly ("Main-".data) ("Int-".data)
      ["Main-7".data, "Other".data] (Or.inl (by decide)) ("Main-7".data)).mpr
    ⟨by decide, Or.inl (by decide), "7".data, by decide, by decide, by decide⟩

/-- One selected server as seen by the per-server loop of
`UpdateServersCommand.execute`: its id and display name from the catalog
entry, and the outcomes of the three remote operations attempted for it —
the detail fetch, the startup/environment update, and the reinstall (an
`Except.error` is the exception that call would raise). -/
structure SrvBehavior where
  serverId : Option Nat
  name : List Char
  fetch : Except (List Char) Unit
  updateStartup : Except (List Char) Unit
  reinstall : Except (List Char) Unit

/-- What the loop body reports for one server. -/
inductive SrvOutcome where
  | skippedNoId
  | fetchFailed (e : List Char)
  | updateFailed (e : List Char)
  | updated
deriving DecidableEq

/-- One iteration of the per-server loop in `UpdateServersCommand.execute`:
skip on a missing id; the detail fetch is wrapped in its own try/except whose
handler reports and continues; the update and reinstall share a try/except
whose handler reports the failure; every exception is confined to this
iteration. -/
def processServer (b : SrvBehavior) : SrvOutcome :=
  match b.serverId with
  | none => SrvOutcome.skippedNoId
  | some _ =>
    match b.fetch with
    | Except.error e => SrvOutcome.fetchFailed e
    | Except.ok _ =>
      match b.updateStartup with
      | Except.error e => SrvOutcome.updateFailed e
      | Except.ok _ =>
        match b.reinstall with
        | Except.error e => SrvOutcome.updateFailed e
        | Except.ok _ => SrvOutcome.updated

/-- The whole per-server loop of `UpdateServersCommand.execute` over the
selected servers, paired with whether the closing "All servers processed."
line is reached (it always is: no exception escapes an iteration). -/
def runBulkUpdate (servers : List SrvBehavior) : List (List Char × SrvOutcome) × Bool :=
  (servers.map (fun b => (b.name, processServer b)), true)

/-- C7: a failure of any one of a server's three remote operations — its
detail fetch, its startup/environment update, or its reinstall — is reported
with that server's name and does not affect the processing of the servers
before or after it; the run still completes.  In each of the three cases the
servers around the failing one are processed exactly as they would be in its
absence: a fetch failure is reported as such, and an update or reinstall
failure is reported through the shared update/reinstall handler. -/
theorem bulk_update_isolates_failures (pre post : List SrvBehavior) (b : SrvBehavior)
    (e : List Char) (i : Nat) (hid : b.serverId = some i) :
    (b.fetch = Except.error e →
      runBulkUpdate (pre ++ b :: post)
        = ((pre.map (fun x => (x.name, processServer x)))
            ++ (b.name, SrvOutcome.fetchFailed e)
            :: post.map (fun x => (x.name, processServer x)), true))
    ∧ (b.fetch = Except.ok () → b.updateStartup = Except.error e →
      runBulkUpdate (pre ++ b :: post)
        = ((pre.map (fun x => (x.name, processServer x)))
            ++ (b.name, SrvOutcome.updateFailed e)
            :: post.map (fun x => (x.name, processServer x)), true))
    ∧ (b.fetch = Except.ok () → b.updateStartup = Except.ok () →
        b.reinstall = Except.error e →
      runBulkUpdate (pre ++ b :: post)
        = ((pre.map (fun x => (x.name, processServer x)))
            ++ (b.name, SrvOutcome.updateFailed e)
            :: post.map (fun x => (x.name, processServer x)), true)) := by
  have key : ∀ o, processServer b = o →
      runBulkUpdate (pre ++ b :: post)
        = ((pre.map (fun x => (x.name, processServer x)))
            ++ (b.name, o)
            :: post.map (fun x => (x.name, processServer x)), true) := by
    intro o ho
    unfold runBulkUpdate
    rw [List.map_append, List.map_cons, ho]
  refine ⟨?_, ?_, ?_⟩
  · intro hf
    exact key _ (by unfold processServer; rw [hid, hf])
  · intro hf hu
    exact key _ (by unfold processServer; rw [hid, hf, hu])
  · intro hf hu hr
    exact key _ (by unfold processServer; rw [hid, hf, hu, hr])

/-- Witness for C7: over three servers where the second one's fetch raises,
the first and third are still updated and the run completes; likewise when
the second one's reinstall (rather than its fetch) is the only failure. -/
theorem bulk_update_isolates_failures_witness :
    runBulkUpdate
        [⟨some 1, "s1".data, Except.ok (), Except.ok (), Except.ok ()⟩,
         ⟨some 2, "s2".data, Except.error ("boom".data), Except.ok (), Except.ok ()⟩,
         ⟨some 3, "s3".data, Except.ok (), Except.ok (), Except.ok ()⟩]
      = ([("s1".data, SrvOutcome.updated),
          ("s2".data, SrvOutcome.fetchFailed ("boom".data)),
          ("s3".data, SrvOutcome.updated)], true)
    ∧ runBulkUpdate
        [⟨some 1, "s1".data, Except.ok (), Except.ok (), Except.ok ()⟩,
         ⟨some 2, "s2".data, Except.ok (), Except.ok (), Except.error ("boom".data)⟩,
         ⟨some 3, "s3".data, Except.ok (), Except.ok (), Except.ok ()⟩]
      = ([("s1".data, SrvOutcome.updated),
          ("s2".data, SrvOutcome.updateFailed ("boom".data)),
          ("s3".data, SrvOutcome.updated)], true) := by
  constructor
  · have h := (bulk_update_isolates_failures
      [⟨some 1, "s1".data, Except.ok (), Except.ok (), Except.ok ()⟩]
      [⟨some 3, "s3".data, Except.ok (), Except.ok (), Except.ok ()⟩]
      ⟨some 2, "s2".data, Except.error ("boom".data), Except.ok (), Except.ok ()⟩
      ("boom".data) 2 rfl).1 rfl
    simpa [processServer] using h
  · have h := (bulk_update_isolates_failures
      [⟨some 1, "s1".data, Except.ok (), Except.ok (), Except.ok ()⟩]
      [⟨some 3, "s3".data, Except.ok (), Except.ok (), Except.ok ()⟩]
      ⟨some 2, "s2".data, Except.ok (), Except.ok (), Except.error ("boom".data)⟩
      ("boom".data) 2 rfl).2.2 rfl rfl rfl
    simpa [processServer] using h

/- ### Artifact-upload retry sub-process (`_upload_jar_with_retry` in
`src/commands/create_server.py`) -/

/-- Observable events of `_upload_jar_with_retry`: an upload attempt with its
1-based number, a `time.sleep(5)` delay, the "start" power action issued after
a successful upload, and the final failure report with manual-upload
guidance. -/
inductive UpEv where
  | attempt (n : Nat)
  | waitDelay (d : Nat)
  | startAction
  | reportFail
deriving DecidableEq

def countAttempts (evs : List UpEv) : Nat :=
  evs.countP (fun e => match e with | UpEv.attempt _ => true | _ => false)

def countWaits (evs : List UpEv) : Nat :=
  evs.countP (fun e => match e with | UpEv.waitDelay _ => true | _ => false)

/-- The `for attempt in range(1, max_attempts + 1)` body of
`_upload_jar_with_retry`, traversing the remaining attempt numbers.  `ok a` is
whether attempt `a`'s POST returns status 204 (a non-204 status and a raised
exception both count as a failed attempt and are handled alike).  On success
the function triggers the "start" power action and returns; otherwise it
sleeps 5 seconds — but only when this is not the last attempt
(`if attempt < max_attempts`) — and goes on; an exhausted loop falls through
to the failure report. -/
def uploadLoop (ok : Nat → Bool) (maxA : Nat) : List Nat → List UpEv
  | [] => [UpEv.reportFail]
  | a :: rest =>
    if ok a then [UpEv.attempt a, UpEv.startAction]
    else if a < maxA then UpEv.attempt a :: UpEv.waitDelay 5 :: uploadLoop ok maxA rest
    else [UpEv.attempt a, UpEv.reportFail]

/-- `_upload_jar_with_retry(...)` with attempt outcomes `ok` and attempt bound
`maxA` (the parameter `max_attempts`, default 6). -/
def uploadJarWithRetry (ok : Nat → Bool) (maxA : Nat) : List UpEv :=
  uploadLoop ok maxA (List.range' 1 maxA)

/-- The event trace of `cnt` consecutive failed attempts starting at attempt
number `a`, each followed by the 5-unit delay. -/
def failRun (a cnt : Nat) : List UpEv :=
  (List.range' a cnt).foldr (fun j acc => UpEv.attempt j :: UpEv.waitDelay 5 :: acc) []

lemma getLast?_cons_of_ne {α : Type} (x : α) (l : List α) (h : l ≠ []) :
    (x :: l).getLast? = l.getLast? := by
  cases l with
  | nil => exact absurd rfl h
  | cons y t => exact List.getLast?_cons_cons

lemma failRun_succ (a m : Nat) :
    failRun a (m + 1) = UpEv.attempt a :: UpEv.waitDelay 5 :: failRun (a + 1) m := by
  unfold failRun
  rw [List.range'_succ]
  rfl

lemma countAttempts_cons_attempt (n : Nat) (l : List UpEv) :
    countAttempts (UpEv.attempt n :: l) = countAttempts l + 1 := by
  simp [countAttempts, List.countP_cons]

lemma countAttempts_cons_wait (d : Nat) (l : List UpEv) :
    countAttempts (UpEv.waitDelay d :: l) = countAttempts l := by
  simp [countAttempts, List.countP_cons]

lemma countWaits_cons_attempt (n : Nat) (l : List UpEv) :
    countWaits (UpEv.attempt n :: l) = countWaits l := by
  simp [countWaits, List.countP_cons]

lemma countWaits_cons_wait (d : Nat) (l : List UpEv) :
    countWaits (UpEv.waitDelay d :: l) = countWaits l + 1 := by
  simp [countWaits, List.countP_cons]

lemma countAttempts_startAction : countAttempts [UpEv.startAction] = 0 := rfl

lemma countAttempts_reportFail : countAttempts [UpEv.reportFail] = 0 := rfl

lemma countWaits_startAction : countWaits [UpEv.startAction] = 0 := rfl

lemma countWaits_reportFail : countWaits [UpEv.reportFail] = 0 := rfl

lemma uploadLoop_ne_nil (ok : Nat → Bool) (maxA : Nat) (l : List Nat) :
    uploadLoop ok maxA l ≠ [] := by
  cases l with
  | nil => simp [uploadLoop]
  | cons a rest =>
    simp only [uploadLoop]
    split
    · simp
    · split <;> simp

lemma uploadLoop_countA_le (ok : Nat → Bool) (maxA : Nat) :
    ∀ cnt a, countAttempts (uploadLoop ok maxA (List.range' a cnt)) ≤ cnt := by
  intro cnt
  induction cnt with
  | zero => intro a; simp [uploadLoop, countAttempts]
  | succ n ih =>
    intro a
    rw [List.range'_succ]
    simp only [uploadLoop]
    split
    · rw [countAttempts_cons_attempt, countAttempts_startAction]
      omega
    · split
      · rw [countAttempts_cons_attempt, countAttempts_cons_wait]
        have := ih (a + 1)
        omega
      · rw [countAttempts_cons_attempt, countAttempts_reportFail]
        omega

lemma uploadLoop_waits5 (ok : Nat → Bool) (maxA : Nat) :
    ∀ l d, UpEv.waitDelay d ∈ uploadLoop ok maxA l → d = 5 := by
  intro l
  induction l with
  | nil => intro d hd; simp [uploadLoop] at hd
  | cons a rest ih =>
    intro d hd
    simp only [uploadLoop] at hd
    split at hd
    · simp at hd
    · split at hd
      · rcases List.mem_cons.mp hd with h | h
        · exact absurd h (by simp)
        · rcases List.mem_cons.mp h with h' | h'
          · exact (UpEv.waitDelay.inj h')
          · exact ih d h'
      · simp at hd

lemma uploadLoop_last (ok : Nat → Bool) (maxA : Nat) :
    ∀ l, (uploadLoop ok maxA l).getLast? = some UpEv.startAction
      ∨ (uploadLoop ok maxA l).getLast? = some UpEv.reportFail := by
  intro l
  induction l with
  | nil => exact Or.inr rfl
  | cons a rest ih =>
    simp only [uploadLoop]
    split
    · exact Or.inl rfl
    · split
      · rw [getLast?_cons_of_ne _ _ (by simp),
          getLast?_cons_of_ne _ _ (uploadLoop_ne_nil ok maxA rest)]
        exact ih
      · exact Or.inr rfl

lemma uploadLoop_wait_count (ok : Nat → Bool) (maxA : Nat) :
    ∀ cnt a, a + cnt = maxA + 1 → 1 ≤ cnt →
      countWaits (uploadLoop ok maxA (List.range' a cnt)) + 1
        = countAttempts (uploadLoop ok maxA (List.range' a cnt)) := by
  intro cnt
  induction cnt with
  | zero => intro a _ h1; exact absurd h1 (by decide)
  | succ n ih =>
    intro a hinv _
    rw [List.range'_succ]
    simp only [uploadLoop]
    split
    · rw [countWaits_cons_attempt, countWaits_startAction,
        countAttempts_cons_attempt, countAttempts_startAction]
    · split
      · have hn : 1 ≤ n := by omega
        have := ih (a + 1) (by omega) hn
        rw [countWaits_cons_attempt, countWaits_cons_wait,
          countAttempts_cons_attempt, countAttempts_cons_wait]
        omega
      · rw [countWaits_cons_attempt, countWaits_reportFail,
          countAttempts_cons_attempt, countAttempts_reportFail]

lemma uploadLoop_all_fail (ok : Nat → Bool) (maxA : Nat) :
    ∀ cnt a, a + cnt = maxA + 1 → (∀ k, a ≤ k → k < a + cnt → ok k = false) →
      (uploadLoop ok maxA (List.range' a cnt)).getLast? = some UpEv.reportFail
      ∧ countAttempts (uploadLoop ok maxA (List.range' a cnt)) = cnt := by
  intro cnt
  induction cnt with
  | zero => intro a _ _; exact ⟨rfl, by simp [uploadLoop, countAttempts]⟩
  | succ n ih =>
    intro a hinv hall
    have hoka : ok a = false := hall a (Nat.le_refl a) (by omega)
    rw [List.range'_succ]
    simp only [uploadLoop]
    rw [if_neg (by simp [hoka])]
    by_cases hlt : a < maxA
    · rw [if_pos hlt]
      have hn := ih (a + 1) (by omega) (fun k h1 h2 => hall k (by omega) (by omega))
      constructor
      · rw [getLast?_cons_of_ne _ _ (by simp),
          getLast?_cons_of_ne _ _ (uploadLoop_ne_nil ok maxA _)]
        exact hn.1
      · rw [countAttempts_cons_attempt, countAttempts_cons_wait]
        omega
    · rw [if_neg hlt]
      have hn0 : n = 0 := by omega
      subst hn0
      refine ⟨rfl, ?_⟩
      rw [countAttempts_cons_attempt, countAttempts_reportFail]

lemma uploadLoop_first_success (ok : Nat → Bool) (maxA : Nat) :
    ∀ cnt a, a + cnt = maxA + 1 →
      ∀ k, a ≤ k → k < a + cnt → ok k = true → (∀ j, a ≤ j → j < k → ok j = false) →
        uploadLoop ok maxA (List.range' a cnt)
          = failRun a (k - a) ++ [UpEv.attempt k, UpEv.startAction] := by
  intro cnt
  induction cnt with
  | zero => intro a _ k h1 h2 _ _; omega
  | succ n ih =>
    intro a hinv k hk1 hk2 hkok hfirst
    rw [List.range'_succ]
    simp only [uploadLoop]
    by_cases hka : k = a
    · subst hka
      rw [if_pos hkok]
      have : k - k = 0 := by omega
      rw [this]
      rfl
    · have hoka : ok a = false := hfirst a (Nat.le_refl a) (by omega)
      rw [if_neg (by simp [hoka])]
      have hlt : a < maxA := by omega
      rw [if_pos hlt]
      have hrec := ih (a + 1) (by omega) k (by omega) (by omega) hkok
        (fun j h1 h2 => hfirst j (by omega) h2)
      rw [hrec]
      have hm : k - a = (k - (a + 1)) + 1 := by omega
      rw [hm, failRun_succ]
      rfl

/-- C8: with the default bound of 6, the upload sub-process makes at most 6
attempts and its (always finite) event trace is well-formed: the number of
5-unit delays is one less than the number of attempts (a delay between
consecutive attempts, none after the last), every delay is exactly 5 units,
the trace ends either with the "start" power action or with the failure
report, an all-failing run makes exactly 6 attempts and ends with the failure
report and manual-upload guidance, and a run whose first success is attempt k
stops there: its trace is the k-1 failed attempts with their delays, the
successful attempt k, then the "start" action against the created server. -/
theorem upload_retry_bounded_spec (ok : Nat → Bool) :
    uploadJarWithRetry ok 6 ≠ []
    ∧ countAttempts (uploadJarWithRetry ok 6) ≤ 6
    ∧ countWaits (uploadJarWithRetry ok 6) + 1 = countAttempts (uploadJarWithRetry ok 6)
    ∧ (∀ d, UpEv.waitDelay d ∈ uploadJarWithRetry ok 6 → d = 5)
    ∧ ((uploadJarWithRetry ok 6).getLast? = some UpEv.startAction
        ∨ (uploadJarWithRetry ok 6).getLast? = some UpEv.reportFail)
    ∧ ((∀ k, 1 ≤ k → k < 7 → ok k = false) →
        (uploadJarWithRetry ok 6).getLast? = some UpEv.reportFail
        ∧ countAttempts (uploadJarWithRetry ok 6) = 6)
    ∧ (∀ k, 1 ≤ k → k < 7 → ok k = true → (∀ j, 1 ≤ j → j < k → ok j = false) →
        uploadJarWithRetry ok 6 = failRun 1 (k - 1) ++ [UpEv.attempt k, UpEv.startAction]) := by
  refine ⟨uploadLoop_ne_nil ok 6 _, uploadLoop_countA_le ok 6 6 1, ?_, ?_, ?_, ?_, ?_⟩
  · exact uploadLoop_wait_count ok 6 6 1 (by omega) (by omega)
  · exact fun d hd => uploadLoop_waits5 ok 6 _ d hd
  · exact uploadLoop_last ok 6 _
  · intro hall
    exact uploadLoop_all_fail ok 6 6 1 (by omega) (fun k h1 h2 => hall k h1 (by omega))
  · intro k h1 h2 hok hfirst
    exact uploadLoop_first_success ok 6 6 1 (by omega) k h1 (by omega) hok hfirst

/-- Witness for C8: when only attempt 2 succeeds, the trace is attempt 1, a
5-unit delay, attempt 2, then the "start" action. -/
theorem upload_retry_bounded_spec_witness :
    uploadJarWithRetry (fun n => decide (n = 2)) 6
      = [UpEv.attempt 1, UpEv.waitDelay 5, UpEv.attempt 2, UpEv.startAction] := by
  have h := (upload_retry_bounded_spec (fun n => decide (n = 2))).2.2.2.2.2.2 2
    (by decide) (by decide) (by decide)
    (fun j h1 h2 => by
      have hj : j = 1 := by omega
      subst hj
      rfl)
  simpa [failRun, List.range'_succ] using h

end ServerManager
